import Mathlib

/-!
Shallow embedding of the `finddupes` duplicate-file finder (Go) in Lean 4,
used to check the natural-language specification against the code.

Modelling conventions:
* Go maps become association lists (`List (κ × α)`); Go map lookup is
  first-match lookup, insertion overwrites the entry for an existing key and
  appends otherwise, deletion removes every entry for the key.
* `time.Time` values are compared only for equality and order in the code, so
  modification times are modelled as `Int`.
* `os.FileMode` is a bit mask, modelled as `Nat`; `os.ModeType` is the
  concrete constant mask from the Go standard library.
* Pointer comparison of `*file.File` values (`fil != slice[0]`) is modelled
  as structural equality: distinct members of a bucket have distinct paths,
  so structural equality coincides with pointer equality there.
* The filesystem, the regexp engine, and the content-hash primitive are
  external collaborators; they enter as oracle functions.
* Cancellation (`ctx.Done()`) is a cooperatively polled signal; a run is
  modelled with a constant `ctxDone : Bool` flag.
-/

namespace FindDupes

/-- `os.ModeType` from the Go standard library:
`ModeDir | ModeSymlink | ModeNamedPipe | ModeSocket | ModeDevice |
 ModeCharDevice | ModeIrregular`
= 2^31 + 2^27 + 2^26 + 2^25 + 2^24 + 2^21 + 2^19. -/
def modeTypeMask : Nat := 2401763328

/-- `file.File` from pkg/file/file.go.  The `Stat` platform handle is carried
by the code but only ever compared through `Mode`, so it is omitted. -/
structure File where
  path : String
  hash : String
  size : Int
  mtime : Int
  mode : Nat
  deriving DecidableEq, Repr

/-- `file.Map` from pkg/file/file.go: `map[string]*File`. -/
abbrev FMap := List (String × File)

/-- `database.Database` from pkg/database/database.go (the mutex only guards
concurrent access and carries no data). -/
structure Database where
  files : List (Int × FMap)
  hashes : List (String × FMap)
  deriving DecidableEq, Repr

/-- `database.New()`: empty maps. -/
def Database.new : Database := { files := [], hashes := [] }

/-! ### Go map operations on association lists -/

/-- Go map read `m[k]` (first matching key). -/
def assocFind {κ α : Type} [DecidableEq κ] (m : List (κ × α)) (k : κ) :
    Option α :=
  (m.find? (fun kv => kv.1 = k)).map (·.2)

/-- Go map delete `delete(m, k)`. -/
def assocErase {κ α : Type} [DecidableEq κ] (m : List (κ × α)) (k : κ) :
    List (κ × α) :=
  m.filter (fun kv => ¬ kv.1 = k)

/-- Go map write `m[k] = v`. -/
def assocInsert {κ α : Type} [DecidableEq κ] (m : List (κ × α)) (k : κ)
    (v : α) : List (κ × α) :=
  if (m.find? (fun kv => kv.1 = k)).isSome then
    m.map (fun kv => if kv.1 = k then (k, v) else kv)
  else
    m ++ [(k, v)]

/-- Read a record out of a two-level index: `outer[k][p]`. -/
def bucketLookup {κ : Type} [DecidableEq κ] (outer : List (κ × FMap)) (k : κ)
    (p : String) : Option File :=
  match assocFind outer k with
  | none => none
  | some m => assocFind m p

/-- Apply `g` to the value stored under key `k`, leaving other entries
unchanged. -/
def mapValAt {κ α : Type} [DecidableEq κ] (outer : List (κ × α)) (k : κ)
    (g : α → α) : List (κ × α) :=
  outer.map (fun kv => if kv.1 = k then (kv.1, g kv.2) else kv)

/-- `delete(outer[k], p)` — deleting from a missing inner map is a no-op in
Go, and so here. -/
def bucketErase {κ : Type} [DecidableEq κ] (outer : List (κ × FMap)) (k : κ)
    (p : String) : List (κ × FMap) :=
  mapValAt outer k (fun m => assocErase m p)

/-- `if outer[k] == nil { outer[k] = Map{} }; outer[k][p] = f`. -/
def bucketInsert {κ : Type} [DecidableEq κ] (outer : List (κ × FMap)) (k : κ)
    (p : String) (f : File) : List (κ × FMap) :=
  if (outer.find? (fun kv => kv.1 = k)).isSome then
    mapValAt outer k (fun m => assocInsert m p f)
  else
    outer ++ [(k, [(p, f)])]

/-! ### Go errors -/

/-- The Go `error` values that the modelled code creates or tests.
`wrapped msg e` is `fmt.Errorf(msg + ": %w", e)` for non-nil `e`;
`wrappedNil msg` is the same formatting applied to a nil `%w` operand,
which yields a non-unwrappable error. -/
inductive GoError
  | notExist
  | processStopped
  | wrapped (msg : String) (inner : GoError)
  | wrappedNil (msg : String)
  | base (msg : String)
  deriving DecidableEq, Repr

/-- `fmt.Errorf(msg + ": %w", e)` for a possibly-nil `e`. -/
def errorf (msg : String) : Option GoError → GoError
  | some e => .wrapped msg e
  | none => .wrappedNil msg

/-- `errors.Is(e, t)` for a non-nil `e`: `%w`-wrapping forms the unwrap
chain. -/
def goErrIs (e t : GoError) : Bool :=
  if e = t then true
  else
    match e with
    | .wrapped _ inner => goErrIs inner t
    | _ => false

/-- `errors.Is` on a possibly-nil error (`errors.Is(nil, t)` is false for
the non-nil targets used here). -/
def errorIs : Option GoError → GoError → Bool
  | none, _ => false
  | some e, t => goErrIs e t

/-! ### pkg/file sorting helpers

The `Slice` type with `Clone`, `ToSlice`, `SortByPath` and `SortByTime` is
referenced throughout the sources and exercised by pkg/file's tests, but its
implementation file is not among the sources; the definitions below are
therefore modelled from the spec (§4.4) and from the behaviour pinned by the
tests in pkg/file. -/

/-- `file.direction` with its `SortAscending` / `SortDescending` values. -/
inductive Direction
  | ascending
  | descending
  deriving DecidableEq, Repr

/-- `Map.ToSlice`: the values of the map as a slice. -/
def ToSlice (m : FMap) : List File := m.map (·.2)

/-- Modelled from the spec: `Slice.SortByPath` is absent from the sources;
§4.4 specifies "a deterministic snapshot ordering by path, lexical
ascending". -/
def SortByPath (s : List File) : List File :=
  List.insertionSort (fun a b => a.path ≤ b.path) s

/-- Modelled from the spec: `Slice.SortByTime` is absent from the sources;
§4.4 specifies ordering by modification time, descending for
keep-most-recent, ascending for keep-oldest. -/
def SortByTime (d : Direction) (s : List File) : List File :=
  match d with
  | .ascending => List.insertionSort (fun a b => a.mtime ≤ b.mtime) s
  | .descending => List.insertionSort (fun a b => b.mtime ≤ a.mtime) s

/-! ### Configuration -/

/-- `config.Config` from pkg/config.  The compiled regexps are external
collaborators, modelled as path predicates. -/
structure Config where
  storeOnly : Bool := false
  path : String := ""
  delete : Bool := false
  verbose : Bool := false
  delMatch : Option (String → Bool) := none
  keepMatch : Option (String → Bool) := none
  keepFirst : Bool := false
  keepLast : Bool := false
  keepOldest : Bool := false
  keepRecent : Bool := false
  workers : Nat := 1

/-! ### RuleEngine: matchRules -/

/-- `matchRules` (part_005:303-325).  The Go `switch` evaluates its cases
top to bottom and takes the first true one.  `fileSlice.Clone().SortByTime(..)[0]`
indexes a nonempty slice, modelled by `head?`; Go pointer inequality is
modelled as structural inequality (bucket members have distinct paths). -/
def matchRules (cfg : Config) (fileSlice : List File) (i : Nat) (fil : File) :
    Bool :=
  if cfg.keepRecent &&
      decide (some fil ≠ (SortByTime .descending fileSlice).head?) then true
  else if cfg.keepOldest &&
      decide (some fil ≠ (SortByTime .ascending fileSlice).head?) then true
  else if cfg.keepFirst && decide (i ≠ 0) then true
  else if cfg.keepLast && decide (i ≠ fileSlice.length - 1) then true
  else if (match cfg.delMatch with
           | some re => re fil.path
           | none => false) then true
  else if (match cfg.keepMatch with
           | some re => !re fil.path
           | none => false) then true
  else false

/-- Which case of the `matchRules` switch fires (equivalently, which of the
six "↳ ..." messages is printed); `none` when no case fires. -/
def matchReason (cfg : Config) (fileSlice : List File) (i : Nat) (fil : File) :
    Option Nat :=
  if cfg.keepRecent &&
      decide (some fil ≠ (SortByTime .descending fileSlice).head?) then some 0
  else if cfg.keepOldest &&
      decide (some fil ≠ (SortByTime .ascending fileSlice).head?) then some 1
  else if cfg.keepFirst && decide (i ≠ 0) then some 2
  else if cfg.keepLast && decide (i ≠ fileSlice.length - 1) then some 3
  else if (match cfg.delMatch with
           | some re => re fil.path
           | none => false) then some 4
  else if (match cfg.keepMatch with
           | some re => !re fil.path
           | none => false) then some 5
  else none

/-- The six retention predicates of the `matchRules` switch, in source
order: keep-most-recent, keep-oldest, keep-first, keep-last,
delete-pattern, keep-pattern (each conjoined with its rule being active). -/
def ruleConds (cfg : Config) (fileSlice : List File) (i : Nat) (fil : File) :
    List Bool :=
  [ cfg.keepRecent &&
      decide (some fil ≠ (SortByTime .descending fileSlice).head?),
    cfg.keepOldest &&
      decide (some fil ≠ (SortByTime .ascending fileSlice).head?),
    cfg.keepFirst && decide (i ≠ 0),
    cfg.keepLast && decide (i ≠ fileSlice.length - 1),
    (match cfg.delMatch with
     | some re => re fil.path
     | none => false),
    (match cfg.keepMatch with
     | some re => !re fil.path
     | none => false) ]

/-! ### Deleter -/

/-- `deleteFile` (part_005:327-339).  `removeOk` is the result of
`os.Remove` (only logged); `gone` is whether the re-`os.Stat` after the
attempt failed, i.e. the file is confirmed gone. -/
def deleteFile (_removeOk : Bool) (gone : Bool) (db : Database) (fil : File) :
    Database :=
  if gone then
    { files := bucketErase db.files fil.size fil.path
      hashes := bucketErase db.hashes fil.hash fil.path }
  else db

/-- State of the inner loop of `DeleteDuplicates` over one hash bucket. -/
structure BucketState where
  processed : Nat
  marked : List File
  stopped : Bool
  db : Database

/-- The per-bucket loop of `DeleteDuplicates` (part_005:271-297).
`length` is `len(files)` captured before the loop; `matchR` is the
`matchRules` test for this bucket's sorted slice; `removeOk`/`gone` are the
per-path oracles consumed by `deleteFile`.  `processed` is incremented as
soon as a candidate matches, before (and regardless of) the deletion
attempt. -/
def bucketLoop (ctxDone : Bool) (cfgDelete : Bool)
    (matchR : Nat → File → Bool) (removeOk gone : String → Bool)
    (length : Nat) : List File → Nat → BucketState → BucketState
  | [], _, s => s
  | fil :: rest, i, s =>
    if ctxDone then { s with stopped := true }
    else if length - s.processed < 2 then s
    else if matchR i fil then
      let s1 : BucketState :=
        { s with processed := s.processed + 1, marked := s.marked ++ [fil] }
      let s2 : BucketState :=
        if cfgDelete then
          { s1 with
            db := deleteFile (removeOk fil.path) (gone fil.path) s1.db fil }
        else s1
      bucketLoop ctxDone cfgDelete matchR removeOk gone length rest (i + 1) s2
    else
      bucketLoop ctxDone cfgDelete matchR removeOk gone length rest (i + 1) s

/-- One hash bucket of `DeleteDuplicates` (part_005:258-298): sort the
bucket's records by path once, then run the candidate loop. -/
def processHashBucket (ctxDone : Bool) (cfg : Config)
    (removeOk gone : String → Bool) (db : Database) (files : FMap) :
    BucketState :=
  let fileSlice := SortByPath (ToSlice files)
  bucketLoop ctxDone cfg.delete (matchRules cfg fileSlice) removeOk gone
    files.length fileSlice 0 ⟨0, [], false, db⟩

/-- The bucket iteration of `DeleteDuplicates`.  A bucket with fewer than
two members is skipped; observing cancellation inside a bucket makes the
whole pass return `ErrProcessStopped`. -/
def deleteDuplicatesGo (ctxDone : Bool) (cfg : Config)
    (removeOk gone : String → Bool) :
    List (String × FMap) → Database → Except GoError Database
  | [], db => .ok db
  | (_, files) :: rest, db =>
    if files.length < 2 then
      deleteDuplicatesGo ctxDone cfg removeOk gone rest db
    else
      let st := processHashBucket ctxDone cfg removeOk gone db files
      if st.stopped then .error .processStopped
      else deleteDuplicatesGo ctxDone cfg removeOk gone rest st.db

/-- `DeleteDuplicates` (part_005:257-301). -/
def DeleteDuplicates (ctxDone : Bool) (cfg : Config)
    (removeOk gone : String → Bool) (db : Database) :
    Except GoError Database :=
  deleteDuplicatesGo ctxDone cfg removeOk gone db.hashes db

/-! ### Walker -/

/-- One event delivered to the `walkDir` callback: a traversal error
(`err != nil`), a failing `entry.Info()` call, or a directory entry with
its stat data. -/
inductive WalkEvent
  | failure (e : GoError)
  | infoFailure (e : GoError)
  | entry (path : String) (mode : Nat) (size : Int) (mtime : Int)

/-- `walkDir` (part_005:92-143), the `filepath.WalkDir` callback.  `known`
is `d.paths`, the set of paths already present in the loaded index. -/
def walkDir (ctxDone : Bool) (known : List String) (db : Database) :
    WalkEvent → Except GoError Database
  | .failure e =>
    if ctxDone then .error .processStopped
    else .error (.wrapped "walk" e)
  | .infoFailure e =>
    if ctxDone then .error .processStopped
    else .error (.wrapped "walk: info" e)
  | .entry path mode size mtime =>
    if ctxDone then .error .processStopped
    else if mode &&& modeTypeMask ≠ 0 then .ok db
    else if size = 0 then .ok db
    else if known.contains path then .ok db
    else
      .ok { db with
        files := bucketInsert db.files size path
          { path := path, hash := "", size := size, mtime := mtime,
            mode := mode } }

/-- `filepath.WalkDir` over one root: deliver events to the callback until
one returns an error, which aborts the walk. -/
def walkFold (ctxDone : Bool) (known : List String) :
    List WalkEvent → Database → Except GoError Database
  | [], db => .ok db
  | ev :: rest, db =>
    match walkDir ctxDone known db ev with
    | .error e => .error e
    | .ok db' => walkFold ctxDone known rest db'

/-! ### Hasher pool -/

/-- The worker body `calculateHash` (part_005:169-212) applied to one
dispatched record: a record whose digest is set is skipped, a record whose
read fails is skipped (logged), otherwise the digest is stored on the
record and the record is inserted into the hash index.  The `fil.Hash =
hash` pointer write is visible through the size index, modelled by
re-inserting the updated record there. -/
def calculateHash (hashFn : String → Option String) (db : Database)
    (fil : File) : Database :=
  if fil.hash ≠ "" then db
  else
    match hashFn fil.path with
    | none => db
    | some h =>
      let fil' := { fil with hash := h }
      { files := bucketInsert db.files fil.size fil.path fil'
        hashes := bucketInsert db.hashes h fil.path fil' }

/-- The records dispatched by the distribution loop of `CalculcateHashes`
(part_005:225-248): every member of every size bucket with at least two
members. -/
def dispatched (db : Database) : List File :=
  (db.files.filter (fun b => 2 ≤ b.2.length)).flatMap (fun b => ToSlice b.2)

/-- `CalculcateHashes` (part_005:214-255; the source spells it with the
extra `c`).  With cancellation pending, the first dispatch iteration
observes `ctx.Done()` and breaks before sending any work; otherwise every
dispatched record is processed by a worker.  The order of hash-index
insertions across workers is scheduler-dependent in Go; the model fixes
dispatch order (no claim proved below depends on it). -/
def CalculcateHashes (ctxDone : Bool) (hashFn : String → Option String)
    (db : Database) : Option GoError × Database :=
  if ctxDone then
    (if dispatched db = [] then none else some .processStopped, db)
  else
    (none, (dispatched db).foldl (calculateHash hashFn) db)

/-! ### Validator -/

/-- The fields of an `os.Stat` result that the code reads. -/
structure StatInfo where
  size : Int
  mtime : Int
  mode : Nat

/-- The body of the `VerifyDatabase` loop (part_005:352-406) for one record
`fil` found in hash bucket `hashKey`:
stat failed → remove from both indices (the hash-index delete uses the loop
variable `hash`); mtime changed → remove from both (the hash-index delete
uses `fil.Hash`), then drop entirely if the type bits changed or the size
is now zero, else clear the digest, update the record and re-insert it into
the size bucket for its current size; mtime unchanged → no change. -/
def verifyRecord (fs : String → Option StatInfo) (hashKey : String)
    (db : Database) (fil : File) : Database :=
  match fs fil.path with
  | none =>
    { files := bucketErase db.files fil.size fil.path
      hashes := bucketErase db.hashes hashKey fil.path }
  | some info =>
    if info.mtime ≠ fil.mtime then
      let db1 : Database :=
        { files := bucketErase db.files fil.size fil.path
          hashes := bucketErase db.hashes fil.hash fil.path }
      if info.mode &&& modeTypeMask ≠ fil.mode &&& modeTypeMask ∨
          info.size = 0 then
        db1
      else
        let fil' := { fil with
          mtime := info.mtime, size := info.size, hash := "",
          mode := info.mode }
        { db1 with files := bucketInsert db1.files info.size fil.path fil' }
    else db

/-- The records of the hash index paired with their bucket keys. -/
def hashEntries (db : Database) : List (String × File) :=
  db.hashes.flatMap (fun b => b.2.map (fun kv => (b.1, kv.2)))

/-- `VerifyDatabase` (part_005:349-409): re-stat every record of the hash
index and reconcile it with the live filesystem state. -/
def VerifyDatabase (fs : String → Option StatInfo) (db : Database) :
    Database :=
  (hashEntries db).foldl (fun acc e => verifyRecord fs e.1 acc e.2) db

/-! ### PersistentStore -/

/-- Modelled from the spec: the on-disk serialization codec is an external
collaborator ("the on-disk serialization codec (a durable object store with
encode/decode semantics)", §1; §6).  A stored blob either decodes back to
the database that was encoded, or is corrupt (a structural store
failure). -/
inductive Blob
  | encoded (files : List (Int × FMap)) (hashes : List (String × FMap))
  | corrupt
  deriving DecidableEq

/-- Modelled from the spec: `gob` encoding of a `Database` (the mutex is
not serialized). -/
def gobEncode (db : Database) : Blob := .encoded db.files db.hashes

/-- Modelled from the spec: `gob` decoding; fails on a corrupt blob. -/
def gobDecode : Blob → Option Database
  | .encoded f h => some { files := f, hashes := h }
  | .corrupt => none

/-- The store as seen by the database layer: path → stored blob. -/
abbrev Store := List (String × Blob)

/-- `Database.Write` (pkg/database/database.go:27-44): create/truncate the
file at `path` and encode into it.  (The round-trip property concerns the
successful path; `os.Create` and close failures are failures of the
external store.) -/
def Database.Write (db : Database) (path : String) (store : Store) : Store :=
  assocInsert store path (gobEncode db)

/-- `Database.Read` (pkg/database/database.go:46-62): open, decode, assign
into `*d`.  A missing file yields the open error wrapping
`os.ErrNotExist`; a blob that fails to decode yields the wrapped decode
error. -/
def Database.Read (path : String) (store : Store) :
    Except GoError Database :=
  match assocFind store path with
  | none => .error (.wrapped "read database" .notExist)
  | some blob =>
    match gobDecode blob with
    | none =>
      .error (.wrapped "read database" (.base "gob decode failure"))
    | some db => .ok db

/-! ### Orchestrator: ProcessFiles -/

/-- What the pipeline stages of one run return to `ProcessFiles`:
`IndexFiles` (part_005:145-167) returns `ErrProcessStopped` exactly when
the walk observed cancellation and `nil` otherwise; `CalculcateHashes` and
`DeleteDuplicates` likewise return `ErrProcessStopped` exactly on
cancellation; `WriteDatabase` reports the write outcome. -/
structure StageOutcomes where
  indexResult : Option GoError
  hashResult : Option GoError
  deleteResult : Option GoError
  writeResult : Option GoError

/-- Observable trace of one `ProcessFiles` run: the returned error, the
database in memory after the load step, which stages were invoked, and
whether the deferred write ran. -/
structure RunResult where
  err : Option GoError
  loadedDb : Database
  ranIndex : Bool
  ranHash : Bool
  ranDelete : Bool
  wroteAttempted : Bool
  deriving DecidableEq

/-- The stage sequence of `ProcessFiles` (part_005:75-89) before the
deferred write: the named return value `err` and which stages ran. -/
def stagesBody (cfg : Config) (st : StageOutcomes) :
    Option GoError × Bool × Bool × Bool :=
  match st.indexResult with
  | some e =>
    (some (.wrapped "process files: index files" e),
      true, false, false)
  | none =>
    match st.hashResult with
    | some e =>
      (some (.wrapped "process files: calculate hashes" e),
        true, true, false)
    | none =>
      if cfg.storeOnly then (none, true, true, false)
      else
        match st.deleteResult with
        | some e =>
          (some (.wrapped "process files: delete duplicates" e),
            true, true, true)
        | none => (none, true, true, true)

/-- The part of `ProcessFiles` after the load step (part_005:65-89): run
the stages, then the deferred write (registered for every exit path from
here on).  When the write fails, the deferred closure replaces the named
return value with `fmt.Errorf("process files: %w", err)` — wrapping the
pre-existing `err` (possibly nil); the write error itself is dropped. -/
def processRun (cfg : Config) (db0 : Database) (st : StageOutcomes) :
    RunResult :=
  let r := stagesBody cfg st
  if cfg.path ≠ "" then
    match st.writeResult with
    | some _ =>
      { err := some (errorf "process files" r.1), loadedDb := db0,
        ranIndex := r.2.1, ranHash := r.2.2.1, ranDelete := r.2.2.2,
        wroteAttempted := true }
    | none =>
      { err := r.1, loadedDb := db0, ranIndex := r.2.1, ranHash := r.2.2.1,
        ranDelete := r.2.2.2, wroteAttempted := true }
  else
    { err := r.1, loadedDb := db0, ranIndex := r.2.1, ranHash := r.2.2.1,
      ranDelete := r.2.2.2, wroteAttempted := false }

/-- `ProcessFiles` (part_005:54-90).  With a database path configured it
first loads the stored database (`readResult` is what `ReadDatabase`
yields): a load error that is not `os.ErrNotExist` is returned before the
write defer is registered and before any stage runs; `os.ErrNotExist` is
ignored and the run proceeds on the fresh database from `New()`.
`VerifyDatabase` then reconciles the loaded records against the stat
oracle `fs`. -/
def ProcessFiles (cfg : Config) (fs : String → Option StatInfo)
    (readResult : Except GoError Database) (st : StageOutcomes) :
    RunResult :=
  if cfg.path ≠ "" then
    match readResult with
    | .error e =>
      if goErrIs e .notExist then
        processRun cfg (VerifyDatabase fs Database.new) st
      else
        { err := some (.wrapped "process files" e),
          loadedDb := Database.new, ranIndex := false, ranHash := false,
          ranDelete := false, wroteAttempted := false }
    | .ok db => processRun cfg (VerifyDatabase fs db) st
  else processRun cfg Database.new st

/-! ### Spec-side formalisation of "first true predicate" (§4.4) -/

/-- The index of the first `true` entry of a list of predicate values, as
the spec phrases rule evaluation: "first true predicate marks it for
removal, remaining predicates are skipped". -/
def firstTrueIdx : List Bool → Option Nat
  | [] => none
  | b :: rest => if b then some 0 else (firstTrueIdx rest).map (· + 1)

/-! ### Lookup/update lemmas for the two-level index -/

theorem assocFind_nil {κ α : Type} [DecidableEq κ] (k : κ) :
    assocFind ([] : List (κ × α)) k = none := rfl

theorem assocFind_cons {κ α : Type} [DecidableEq κ]
    (kv : κ × α) (rest : List (κ × α)) (k : κ) :
    assocFind (kv :: rest) k =
      if kv.1 = k then some kv.2 else assocFind rest k := by
  by_cases h : kv.1 = k <;> simp [assocFind, List.find?_cons, h]

theorem assocErase_cons {κ α : Type} [DecidableEq κ]
    (kv : κ × α) (rest : List (κ × α)) (k : κ) :
    assocErase (kv :: rest) k =
      if kv.1 = k then assocErase rest k else kv :: assocErase rest k := by
  by_cases h : kv.1 = k <;> simp [assocErase, List.filter_cons, h]

theorem assocFind_erase {κ α : Type} [DecidableEq κ]
    (m : List (κ × α)) (k k' : κ) :
    assocFind (assocErase m k) k' =
      if k' = k then none else assocFind m k' := by
  induction m with
  | nil => by_cases h : k' = k <;> simp [assocErase, assocFind_nil, h]
  | cons kv rest ih =>
    rcases eq_or_ne k' k with h' | h'
    · subst h'
      rw [if_pos rfl] at ih ⊢
      by_cases hk : kv.1 = k'
      · rw [assocErase_cons, if_pos hk, ih]
      · rw [assocErase_cons, if_neg hk, assocFind_cons, if_neg hk, ih]
    · rw [if_neg h']
      by_cases hk : kv.1 = k
      · have hne : ¬ kv.1 = k' := fun hc => h' (hc.symm.trans hk)
        rw [assocErase_cons, if_pos hk, assocFind_cons, if_neg hne, ih,
          if_neg h']
      · rw [assocErase_cons, if_neg hk, assocFind_cons, assocFind_cons, ih,
          if_neg h']

theorem assocFind_erase_self {κ α : Type} [DecidableEq κ]
    (m : List (κ × α)) (k : κ) : assocFind (assocErase m k) k = none := by
  simp [assocFind_erase]

theorem assocFind_erase_ne {κ α : Type} [DecidableEq κ]
    (m : List (κ × α)) (k k' : κ) (h : k' ≠ k) :
    assocFind (assocErase m k) k' = assocFind m k' := by
  simp [assocFind_erase, h]

theorem assocFind_replace {κ α : Type} [DecidableEq κ]
    (m : List (κ × α)) (k k' : κ) (v : α) :
    assocFind (m.map (fun kv => if kv.1 = k then (k, v) else kv)) k' =
      if k' = k then (if (assocFind m k).isSome then some v else none)
      else assocFind m k' := by
  induction m with
  | nil => by_cases h : k' = k <;> simp [assocFind_nil, h]
  | cons kv rest ih =>
    rw [List.map_cons]
    rcases eq_or_ne k' k with h' | h'
    · subst h'
      rw [if_pos rfl] at ih ⊢
      by_cases hk : kv.1 = k'
      · simp [hk, assocFind_cons, ih]
      · simp [hk, assocFind_cons, ih]
    · rw [if_neg h']
      by_cases hk : kv.1 = k
      · have hne : ¬ kv.1 = k' := fun hc => h' (hc.symm.trans hk)
        have hkk : ¬ k = k' := fun hc => h' hc.symm
        simp [hk, hne, hkk, assocFind_cons, ih, h']
      · simp [hk, assocFind_cons, ih, h']

theorem assocFind_append {κ α : Type} [DecidableEq κ]
    (m₁ m₂ : List (κ × α)) (k : κ) :
    assocFind (m₁ ++ m₂) k =
      (assocFind m₁ k).or (assocFind m₂ k) := by
  induction m₁ with
  | nil => simp [assocFind_nil]
  | cons kv rest ih =>
    rw [List.cons_append, assocFind_cons, assocFind_cons]
    by_cases h : kv.1 = k <;> simp [h, ih]

theorem assocFind_insert {κ α : Type} [DecidableEq κ]
    (m : List (κ × α)) (k k' : κ) (v : α) :
    assocFind (assocInsert m k v) k' =
      if k' = k then some v else assocFind m k' := by
  unfold assocInsert
  by_cases hs : (m.find? (fun kv => kv.1 = k)).isSome
  · rw [if_pos hs, assocFind_replace]
    by_cases h : k' = k
    · have : (assocFind m k).isSome := by
        simpa [assocFind, Option.isSome_map] using hs
      simp [h, this]
    · simp [h]
  · rw [if_neg hs, assocFind_append, assocFind_cons, assocFind_nil]
    by_cases h : k' = k
    · subst h
      have hnone : assocFind m k' = none := by
        rcases ho : m.find? (fun kv => kv.1 = k') with _ | kv
        · simp [assocFind, ho]
        · exact absurd (by simp [ho]) hs
      simp [hnone]
    · have hkk : ¬ k = k' := fun hc => h hc.symm
      simp [h, hkk]

theorem assocFind_insert_self {κ α : Type} [DecidableEq κ]
    (m : List (κ × α)) (k : κ) (v : α) :
    assocFind (assocInsert m k v) k = some v := by
  simp [assocFind_insert]

theorem assocFind_insert_ne {κ α : Type} [DecidableEq κ]
    (m : List (κ × α)) (k k' : κ) (v : α) (h : k' ≠ k) :
    assocFind (assocInsert m k v) k' = assocFind m k' := by
  simp [assocFind_insert, h]

/-! ### Bucket-level lookup lemmas -/

theorem assocFind_mapValAt {κ α : Type} [DecidableEq κ]
    (outer : List (κ × α)) (k k' : κ) (g : α → α) :
    assocFind (mapValAt outer k g) k' =
      if k' = k then (assocFind outer k').map g else assocFind outer k' := by
  induction outer with
  | nil => by_cases h : k' = k <;> simp [mapValAt, assocFind_nil, h]
  | cons kv rest ih =>
    unfold mapValAt at ih ⊢
    rw [List.map_cons]
    rcases eq_or_ne k' k with h' | h'
    · subst h'
      rw [if_pos rfl] at ih ⊢
      by_cases hk : kv.1 = k'
      · simp [hk, assocFind_cons, ih]
      · simp [hk, assocFind_cons, ih]
    · rw [if_neg h']
      by_cases hk : kv.1 = k
      · have hne : ¬ kv.1 = k' := fun hc => h' (hc.symm.trans hk)
        have hkk : ¬ k = k' := fun hc => h' hc.symm
        simp [hk, hne, hkk, assocFind_cons, ih, h']
      · simp [hk, assocFind_cons, ih, h']

theorem bucketLookup_erase {κ : Type} [DecidableEq κ]
    (outer : List (κ × FMap)) (k k' : κ) (p p' : String) :
    bucketLookup (bucketErase outer k p) k' p' =
      if k' = k ∧ p' = p then none else bucketLookup outer k' p' := by
  unfold bucketLookup bucketErase
  rw [assocFind_mapValAt]
  rcases eq_or_ne k' k with h' | h'
  · subst h'
    rw [if_pos rfl]
    rcases ho : assocFind outer k' with _ | m
    · by_cases hp : p' = p <;> simp [hp]
    · by_cases hp : p' = p <;> simp [hp, assocFind_erase]
  · rw [if_neg h']
    have : ¬ (k' = k ∧ p' = p) := fun hc => h' hc.1
    rw [if_neg this]

theorem bucketLookup_insert {κ : Type} [DecidableEq κ]
    (outer : List (κ × FMap)) (k k' : κ) (p p' : String) (f : File) :
    bucketLookup (bucketInsert outer k p f) k' p' =
      if k' = k then (if p' = p then some f else bucketLookup outer k p')
      else bucketLookup outer k' p' := by
  unfold bucketLookup bucketInsert
  by_cases hs : (outer.find? (fun kv => kv.1 = k)).isSome
  · rw [if_pos hs, assocFind_mapValAt]
    rcases eq_or_ne k' k with h' | h'
    · subst h'
      rw [if_pos rfl, if_pos rfl]
      rcases ho : assocFind outer k' with _ | m
      · exact absurd (by simpa [assocFind, Option.map_eq_none] using ho)
          (by simpa using hs)
      · by_cases hp : p' = p <;> simp [hp, assocFind_insert]
    · rw [if_neg h', if_neg h']
  · rw [if_neg hs, assocFind_append, assocFind_cons, assocFind_nil]
    have hnone : assocFind outer k = none := by
      rcases ho : outer.find? (fun kv => kv.1 = k) with _ | kv
      · simp [assocFind, ho]
      · exact absurd (by simp [ho]) hs
    rcases eq_or_ne k' k with h' | h'
    · subst h'
      rw [if_pos rfl, hnone]
      by_cases hp : p' = p
      · subst hp
        simp [assocFind_cons]
      · have hne : ¬ p = p' := fun hc => hp hc.symm
        simp [assocFind_cons, hne, assocFind_nil, hp]
    · have hkk : ¬ k = k' := fun hc => h' hc.symm
      rw [if_neg hkk, if_neg h']
      rcases ho : assocFind outer k' with _ | m <;> simp

/-! ### C4 -/

/-- C4: Writing a database to a path and reading it back yields a database
structurally equal to the original, for any database including the empty
one (empty `Files` and `Hashes` maps). -/
theorem database_write_read_roundtrip (db : Database) (path : String)
    (store : Store) :
    Database.Read path (Database.Write db path store) = .ok db := by
  unfold Database.Read Database.Write
  rw [assocFind_insert_self]
  rfl

/-! ### C2 -/

/-- A six-way `if` chain returning whether some condition holds equals
`any` of the condition list. -/
theorem chainAny_eq (b0 b1 b2 b3 b4 b5 : Bool) :
    (if b0 then true
     else if b1 then true
     else if b2 then true
     else if b3 then true
     else if b4 then true
     else if b5 then true
     else false) = ([b0, b1, b2, b3, b4, b5].any id) := by
  revert b0 b1 b2 b3 b4 b5
  decide

/-- A six-way `if` chain returning the index of the branch taken equals
the index of the first true condition. -/
theorem chainIdx_eq (b0 b1 b2 b3 b4 b5 : Bool) :
    (if b0 then some 0
     else if b1 then some 1
     else if b2 then some 2
     else if b3 then some 3
     else if b4 then some 4
     else if b5 then some 5
     else none) = firstTrueIdx [b0, b1, b2, b3, b4, b5] := by
  revert b0 b1 b2 b3 b4 b5
  decide

/-- C2: `matchRules` evaluates the retention predicates in the fixed order
keep-most-recent, keep-oldest, keep-first, keep-last, delete-pattern,
keep-pattern; the case taken (the message printed) is the first true
predicate and later predicates cannot affect the outcome once one holds;
with no rule configured, no candidate is ever marked. -/
theorem matchRules_precedence (cfg : Config) (fileSlice : List File)
    (i : Nat) (fil : File) :
    matchRules cfg fileSlice i fil =
        (ruleConds cfg fileSlice i fil).any id ∧
      matchReason cfg fileSlice i fil =
        firstTrueIdx (ruleConds cfg fileSlice i fil) ∧
      ((cfg.keepRecent = false ∧ cfg.keepOldest = false ∧
          cfg.keepFirst = false ∧ cfg.keepLast = false ∧
          cfg.delMatch = none ∧ cfg.keepMatch = none) →
        matchRules cfg fileSlice i fil = false) := by
  refine ⟨?_, ?_, ?_⟩
  · unfold matchRules ruleConds
    exact chainAny_eq _ _ _ _ _ _
  · unfold matchReason ruleConds
    exact chainIdx_eq _ _ _ _ _ _
  · rintro ⟨e0, e1, e2, e3, e4, e5⟩
    simp [matchRules, e0, e1, e2, e3, e4, e5]

/-- Witness for C2 at a concrete input: with no rule configured, the
candidate is not marked. -/
theorem matchRules_precedence_witness :
    matchRules {} [⟨"/a", "h", 1, 0, 0⟩] 0 ⟨"/a", "h", 1, 0, 0⟩ = false :=
  (matchRules_precedence {} [⟨"/a", "h", 1, 0, 0⟩] 0
      ⟨"/a", "h", 1, 0, 0⟩).2.2 ⟨rfl, rfl, rfl, rfl, rfl, rfl⟩

/-! ### C9 -/

/-- One unfolding step of `bucketLoop` on a nonempty slice. -/
theorem bucketLoop_cons (ctxDone cfgDelete : Bool) (m : Nat → File → Bool)
    (removeOk gone : String → Bool) (length : Nat) (fil : File)
    (rest : List File) (i : Nat) (s : BucketState) :
    bucketLoop ctxDone cfgDelete m removeOk gone length (fil :: rest) i s =
      if ctxDone then { s with stopped := true }
      else if length - s.processed < 2 then s
      else if m i fil then
        bucketLoop ctxDone cfgDelete m removeOk gone length rest (i + 1)
          (if cfgDelete then
            { processed := s.processed + 1, marked := s.marked ++ [fil],
              stopped := s.stopped,
              db := deleteFile (removeOk fil.path) (gone fil.path) s.db fil }
          else
            { s with
              processed := s.processed + 1
              marked := s.marked ++ [fil] })
      else
        bucketLoop ctxDone cfgDelete m removeOk gone length rest (i + 1) s
    := rfl

/-- The observable control flow of the per-bucket loop (processed count,
marked candidates, stop flag) does not depend on the `os.Remove`/re-stat
outcomes: a failed deletion never aborts or alters the pass. -/
theorem bucketLoop_oracle_indep (ctxDone cfgDelete : Bool)
    (m : Nat → File → Bool) (removeOk removeOk' gone gone' : String → Bool)
    (length : Nat) :
    ∀ (slice : List File) (i : Nat) (s s' : BucketState),
      s.processed = s'.processed → s.marked = s'.marked →
      s.stopped = s'.stopped →
      (bucketLoop ctxDone cfgDelete m removeOk gone length slice i
          s).processed =
        (bucketLoop ctxDone cfgDelete m removeOk' gone' length slice i
          s').processed ∧
      (bucketLoop ctxDone cfgDelete m removeOk gone length slice i
          s).marked =
        (bucketLoop ctxDone cfgDelete m removeOk' gone' length slice i
          s').marked ∧
      (bucketLoop ctxDone cfgDelete m removeOk gone length slice i
          s).stopped =
        (bucketLoop ctxDone cfgDelete m removeOk' gone' length slice i
          s').stopped := by
  intro slice
  induction slice with
  | nil => intro i s s' hp hm hs; exact ⟨hp, hm, hs⟩
  | cons fil rest ih =>
    intro i s s' hp hm hs
    rw [bucketLoop_cons, bucketLoop_cons]
    by_cases hd : ctxDone = true
    · rw [if_pos hd, if_pos hd]
      exact ⟨by simp [hp], by simp [hm], by simp⟩
    · rw [if_neg hd, if_neg hd, hp]
      by_cases hg : length - s'.processed < 2
      · rw [if_pos hg, if_pos hg]
        exact ⟨hp, hm, hs⟩
      · rw [if_neg hg, if_neg hg]
        by_cases hmt : m i fil = true
        · rw [if_pos hmt, if_pos hmt]
          by_cases hdel : cfgDelete = true
          · rw [if_pos hdel, if_pos hdel]
            exact ih (i + 1) _ _ (by simp [hp]) (by simp [hm]) (by simp [hs])
          · rw [if_neg hdel, if_neg hdel]
            exact ih (i + 1) _ _ (by simp [hp]) (by simp [hm]) (by simp [hs])
        · rw [if_neg hmt, if_neg hmt]
          exact ih (i + 1) s s' hp hm hs

/-- C9: after each deletion attempt `deleteFile` re-stats the path: a file
confirmed gone is purged from both the size and the hash index (whatever
`os.Remove` reported); a file still present is kept in both indices
unchanged; and the deletion pass is never aborted — the loop's marking and
progress are independent of the removal and re-stat outcomes. -/
theorem deleteFile_reconciliation (removeOk : Bool) (db : Database)
    (fil : File) :
    (bucketLookup (deleteFile removeOk true db fil).files fil.size fil.path
        = none ∧
      bucketLookup (deleteFile removeOk true db fil).hashes fil.hash fil.path
        = none) ∧
    deleteFile removeOk false db fil = db ∧
    (∀ (ctxDone cfgDelete : Bool) (m : Nat → File → Bool)
       (removeOkA removeOkB goneA goneB : String → Bool) (length : Nat)
       (slice : List File) (i : Nat) (s : BucketState),
      (bucketLoop ctxDone cfgDelete m removeOkA goneA length slice i
          s).processed =
        (bucketLoop ctxDone cfgDelete m removeOkB goneB length slice i
          s).processed ∧
      (bucketLoop ctxDone cfgDelete m removeOkA goneA length slice i
          s).marked =
        (bucketLoop ctxDone cfgDelete m removeOkB goneB length slice i
          s).marked ∧
      (bucketLoop ctxDone cfgDelete m removeOkA goneA length slice i
          s).stopped =
        (bucketLoop ctxDone cfgDelete m removeOkB goneB length slice i
          s).stopped) := by
  refine ⟨⟨?_, ?_⟩, ?_, ?_⟩
  · simp [deleteFile, bucketLookup_erase]
  · simp [deleteFile, bucketLookup_erase]
  · simp [deleteFile]
  · intro ctxDone cfgDelete m rA rB gA gB len slice i s
    exact bucketLoop_oracle_indep ctxDone cfgDelete m rA rB gA gB len
      slice i s s rfl rfl rfl

/-! ### Orchestrator lemmas -/

theorem goErrIs_refl (t : GoError) : goErrIs t t = true := by
  unfold goErrIs
  rw [if_pos rfl]

theorem goErrIs_wrapped (msg : String) (e t : GoError)
    (h : goErrIs e t = true) : goErrIs (GoError.wrapped msg e) t = true := by
  unfold goErrIs
  by_cases hq : GoError.wrapped msg e = t
  · rw [if_pos hq]
  · rw [if_neg hq]
    exact h

theorem stagesBody_ranIndex (cfg : Config) (st : StageOutcomes) :
    (stagesBody cfg st).2.1 = true := by
  unfold stagesBody
  rcases hi : st.indexResult with _ | e
  · rcases hh : st.hashResult with _ | e
    · by_cases hso : cfg.storeOnly = true
      · simp [hso]
      · rcases hd : st.deleteResult with _ | e <;> simp [hso]
    · simp
  · simp

theorem processRun_obs (cfg : Config) (db0 : Database) (st : StageOutcomes) :
    (processRun cfg db0 st).loadedDb = db0 ∧
      (processRun cfg db0 st).ranIndex = true ∧
      (cfg.path ≠ "" → (processRun cfg db0 st).wroteAttempted = true) ∧
      (processRun cfg db0 st).ranHash = (stagesBody cfg st).2.2.1 ∧
      (processRun cfg db0 st).ranDelete = (stagesBody cfg st).2.2.2 := by
  by_cases hp : cfg.path ≠ ""
  · rcases hw : st.writeResult with _ | w <;>
      simp [processRun, hp, hw, stagesBody_ranIndex]
  · simp [processRun, hp, stagesBody_ranIndex]

theorem processRun_err (cfg : Config) (db0 : Database) (st : StageOutcomes) :
    (processRun cfg db0 st).err = (stagesBody cfg st).1 ∨
      ((∃ w, st.writeResult = some w) ∧ cfg.path ≠ "" ∧
        (processRun cfg db0 st).err =
          some (errorf "process files" (stagesBody cfg st).1)) := by
  by_cases hp : cfg.path ≠ ""
  · rcases hw : st.writeResult with _ | w
    · left
      simp [processRun, hp, hw]
    · right
      refine ⟨⟨w, rfl⟩, hp, ?_⟩
      rcases hs : (stagesBody cfg st).1 with _ | e <;>
        simp [processRun, hp, hw, hs, errorf]
  · left
    simp [processRun, hp]

theorem processRun_err_write (cfg : Config) (db0 : Database)
    (st : StageOutcomes) (hp : cfg.path ≠ "") (w : GoError)
    (hw : st.writeResult = some w) :
    (processRun cfg db0 st).err =
      some (errorf "process files" (stagesBody cfg st).1) := by
  simp [processRun, hp, hw]

theorem processRun_err_nowrite (cfg : Config) (db0 : Database)
    (st : StageOutcomes) (hw : st.writeResult = none) :
    (processRun cfg db0 st).err = (stagesBody cfg st).1 := by
  by_cases hp : cfg.path ≠ "" <;> simp [processRun, hp, hw]

/-- Reduction of `ProcessFiles` to `processRun` when the load step does not
fail fatally. -/
theorem processFiles_reduces (cfg : Config) (fs : String → Option StatInfo)
    (r : Except GoError Database) (st : StageOutcomes)
    (hload : ∀ e, r = .error e → goErrIs e .notExist = true) :
    ∃ db0, ProcessFiles cfg fs r st = processRun cfg db0 st := by
  unfold ProcessFiles
  by_cases hp : cfg.path ≠ ""
  · rw [if_pos hp]
    rcases r with e | db
    · have hni := hload e rfl
      simp only [hni, if_true]
      exact ⟨_, rfl⟩
    · exact ⟨_, rfl⟩
  · rw [if_neg hp]
    exact ⟨_, rfl⟩

/-! ### C7 -/

/-- C7: with a database path configured, `ProcessFiles` treats a missing
database file (`errors.Is(err, os.ErrNotExist)`) as non-fatal — the run is
the same as with a fresh empty index — whereas any other failure to read or
decode the stored database is returned (wrapped) before indexing, hashing
or deletion run, and without attempting the final write. -/
theorem processFiles_read_error_handling (cfg : Config)
    (fs : String → Option StatInfo) (st : StageOutcomes) (e : GoError)
    (hpath : cfg.path ≠ "") :
    (goErrIs e .notExist = true →
      ProcessFiles cfg fs (.error e) st =
          ProcessFiles cfg fs (.ok Database.new) st ∧
        (ProcessFiles cfg fs (.error e) st).loadedDb = Database.new ∧
        (ProcessFiles cfg fs (.error e) st).ranIndex = true) ∧
    (goErrIs e .notExist = false →
      (ProcessFiles cfg fs (.error e) st).err =
          some (.wrapped "process files" e) ∧
        (ProcessFiles cfg fs (.error e) st).ranIndex = false ∧
        (ProcessFiles cfg fs (.error e) st).ranHash = false ∧
        (ProcessFiles cfg fs (.error e) st).ranDelete = false ∧
        (ProcessFiles cfg fs (.error e) st).wroteAttempted = false) := by
  constructor
  · intro hni
    have h1 : ProcessFiles cfg fs (.error e) st =
        processRun cfg (VerifyDatabase fs Database.new) st := by
      unfold ProcessFiles
      rw [if_pos hpath]
      simp only [hni, if_true]
    have h2 : ProcessFiles cfg fs (.ok Database.new) st =
        processRun cfg (VerifyDatabase fs Database.new) st := by
      unfold ProcessFiles
      rw [if_pos hpath]
    have hvn : VerifyDatabase fs Database.new = Database.new := rfl
    refine ⟨h1.trans h2.symm, ?_, ?_⟩
    · rw [h1, hvn]
      exact (processRun_obs cfg Database.new st).1
    · rw [h1]
      exact (processRun_obs cfg _ st).2.1
  · intro hni
    have h1 : ProcessFiles cfg fs (.error e) st =
        { err := some (.wrapped "process files" e), loadedDb := Database.new,
          ranIndex := false, ranHash := false, ranDelete := false,
          wroteAttempted := false } := by
      unfold ProcessFiles
      rw [if_pos hpath]
      simp only [hni]
      rfl
    rw [h1]
    exact ⟨rfl, rfl, rfl, rfl, rfl⟩

/-- Witness for C7: a corrupt stored database (a decode failure, not
`os.ErrNotExist`) makes the run fail before any stage. -/
theorem processFiles_read_error_handling_witness :
    (ProcessFiles { path := "db" } (fun _ => none)
        (.error (.wrapped "read database" (.base "gob decode failure")))
        ⟨none, none, none, none⟩).ranIndex = false :=
  ((processFiles_read_error_handling { path := "db" } (fun _ => none)
      ⟨none, none, none, none⟩
      (.wrapped "read database" (.base "gob decode failure"))
      (by simp)).2 (by decide)).2.1

/-! ### C8 -/

/-- C8: if the cancellation signal fires during indexing, hashing, or
deletion — the corresponding stage returns `ErrProcessStopped` —
`ProcessFiles` short-circuits the remaining stages, returns an error `err`
with `errors.Is(err, ErrProcessStopped)` true (distinguishing cancellation
from ordinary failures), and when а database path is configured the
deferred database write is still attempted. -/
theorem processFiles_cancellation (cfg : Config)
    (fs : String → Option StatInfo) (r : Except GoError Database)
    (st : StageOutcomes)
    (hload : ∀ e, r = .error e → goErrIs e .notExist = true)
    (hstop : st.indexResult = some .processStopped ∨
      (st.indexResult = none ∧ st.hashResult = some .processStopped) ∨
      (st.indexResult = none ∧ st.hashResult = none ∧
        cfg.storeOnly = false ∧
        st.deleteResult = some .processStopped)) :
    errorIs (ProcessFiles cfg fs r st).err .processStopped = true ∧
      (cfg.path ≠ "" → (ProcessFiles cfg fs r st).wroteAttempted = true) ∧
      (st.indexResult = some .processStopped →
        (ProcessFiles cfg fs r st).ranHash = false ∧
        (ProcessFiles cfg fs r st).ranDelete = false) ∧
      (st.indexResult = none → st.hashResult = some .processStopped →
        (ProcessFiles cfg fs r st).ranDelete = false) := by
  obtain ⟨db0, hdb⟩ := processFiles_reduces cfg fs r st hload
  rw [hdb]
  have hE : ∃ msg, (stagesBody cfg st).1 =
      some (.wrapped msg .processStopped) := by
    rcases hstop with h | ⟨h1, h2⟩ | ⟨h1, h2, h3, h4⟩
    · exact ⟨"process files: index files", by simp [stagesBody, h]⟩
    · exact ⟨"process files: calculate hashes", by simp [stagesBody, h1, h2]⟩
    · exact ⟨"process files: delete duplicates",
        by simp [stagesBody, h1, h2, h3, h4]⟩
  obtain ⟨msg, hmsg⟩ := hE
  refine ⟨?_, (processRun_obs cfg db0 st).2.2.1, ?_, ?_⟩
  · rcases processRun_err cfg db0 st with h | ⟨_, _, h⟩
    · rw [h, hmsg]
      exact goErrIs_wrapped msg _ _ (goErrIs_refl _)
    · rw [h, hmsg]
      exact goErrIs_wrapped "process files" _ _
        (goErrIs_wrapped msg _ _ (goErrIs_refl _))
  · intro hidx
    have hr := (processRun_obs cfg db0 st).2.2.2
    constructor
    · rw [hr.1]
      simp [stagesBody, hidx]
    · rw [hr.2]
      simp [stagesBody, hidx]
  · intro hidx hhash
    rw [(processRun_obs cfg db0 st).2.2.2.2]
    simp [stagesBody, hidx, hhash]

/-- Witness for C8: a run cancelled during hashing, with a database path
configured, reports `ErrProcessStopped` and still attempts the write. -/
theorem processFiles_cancellation_witness :
    errorIs (ProcessFiles { path := "db" } (fun _ => none) (.ok Database.new)
        ⟨none, some .processStopped, none, none⟩).err .processStopped
      = true ∧
    (ProcessFiles { path := "db" } (fun _ => none) (.ok Database.new)
        ⟨none, some .processStopped, none, none⟩).wroteAttempted = true := by
  have h := processFiles_cancellation { path := "db" } (fun _ => none)
    (.ok Database.new) ⟨none, some .processStopped, none, none⟩
    (fun e he => by cases he) (Or.inr (Or.inl ⟨rfl, rfl⟩))
  exact ⟨h.1, h.2.1 (by simp)⟩

/-! ### C10 -/

/-- C10: if the deferred final database write fails, the write error is
discarded: the returned error wraps the pre-existing stage error (which may
be nil — the no-write-failure run's error), so a run in which every stage
succeeded but the final save failed returns a non-nil error that does not
contain the write error. -/
theorem processFiles_write_error_discarded (cfg : Config)
    (fs : String → Option StatInfo) (r : Except GoError Database)
    (st : StageOutcomes) (w : GoError)
    (hload : ∀ e, r = .error e → goErrIs e .notExist = true)
    (hpath : cfg.path ≠ "") (hw : st.writeResult = some w) :
    (ProcessFiles cfg fs r st).err =
        some (errorf "process files"
          (ProcessFiles cfg fs r { st with writeResult := none }).err) ∧
      ((ProcessFiles cfg fs r { st with writeResult := none }).err = none →
        (ProcessFiles cfg fs r st).err ≠ none ∧
        (w ≠ .wrappedNil "process files" →
          errorIs (ProcessFiles cfg fs r st).err w = false)) := by
  obtain ⟨db0, hdb⟩ := processFiles_reduces cfg fs r st hload
  have hload' : ∀ e, r = .error e → goErrIs e .notExist = true := hload
  obtain ⟨db1, hdb1⟩ :=
    processFiles_reduces cfg fs r { st with writeResult := none } hload'
  have hsb : stagesBody cfg { st with writeResult := none } =
      stagesBody cfg st := rfl
  have herr1 : (ProcessFiles cfg fs r { st with writeResult := none }).err =
      (stagesBody cfg st).1 := by
    rw [hdb1]
    rw [processRun_err_nowrite cfg db1 { st with writeResult := none } rfl,
      hsb]
  have herr : (ProcessFiles cfg fs r st).err =
      some (errorf "process files" (stagesBody cfg st).1) := by
    rw [hdb]
    exact processRun_err_write cfg db0 st hpath w hw
  refine ⟨by rw [herr, herr1], ?_⟩
  intro hnone
  rw [herr1] at hnone
  rw [herr, hnone]
  refine ⟨by simp [errorf], ?_⟩
  intro hne
  simp only [errorf, errorIs]
  unfold goErrIs
  rw [if_neg (fun hc => hne hc.symm)]

/-- Witness for C10: all stages succeed, the final save fails; the run
returns a non-nil error that does not contain the write error. -/
theorem processFiles_write_error_discarded_witness :
    (ProcessFiles { path := "db" } (fun _ => none) (.ok Database.new)
        ⟨none, none, none, some (.base "disk full")⟩).err ≠ none ∧
    errorIs (ProcessFiles { path := "db" } (fun _ => none) (.ok Database.new)
        ⟨none, none, none, some (.base "disk full")⟩).err
      (.base "disk full") = false := by
  have h := processFiles_write_error_discarded { path := "db" }
    (fun _ => none) (.ok Database.new)
    ⟨none, none, none, some (.base "disk full")⟩ (.base "disk full")
    (fun e he => by cases he) (by simp) rfl
  have h2 := h.2 (by decide)
  exact ⟨h2.1, h2.2 (by decide)⟩

/-! ### C6 -/

/-- New hash-index entries produced by the worker fold come from the
dispatched records: the fold only ever inserts a record under its own
path. -/
theorem calcHash_foldl_new (hashFn : String → Option String) :
    ∀ (l : List File) (db : Database) (hv p : String),
      bucketLookup (l.foldl (calculateHash hashFn) db).hashes hv p ≠ none →
      bucketLookup db.hashes hv p ≠ none ∨ ∃ f ∈ l, f.path = p := by
  intro l
  induction l with
  | nil =>
    intro db hv p h
    exact Or.inl h
  | cons f rest ih =>
    intro db hv p h
    rw [List.foldl_cons] at h
    rcases ih (calculateHash hashFn db f) hv p h with h' | ⟨g, hg, hgp⟩
    · by_cases hh : f.hash ≠ ""
      · rw [show calculateHash hashFn db f = db by
          simp [calculateHash, hh]] at h'
        exact Or.inl h'
      · rcases hfn : hashFn f.path with _ | newh
        · rw [show calculateHash hashFn db f = db by
            simp [calculateHash, hh, hfn]] at h'
          exact Or.inl h'
        · rw [show calculateHash hashFn db f =
              { files := bucketInsert db.files f.size f.path
                  { f with hash := newh }
                hashes := bucketInsert db.hashes newh f.path
                  { f with hash := newh } } by
            simp [calculateHash, hh, hfn]] at h'
          rw [bucketLookup_insert] at h'
          by_cases hhv : hv = newh
          · rw [if_pos hhv] at h'
            by_cases hp : p = f.path
            · exact Or.inr ⟨f, List.mem_cons_self f rest, hp.symm⟩
            · rw [if_neg hp] at h'
              subst hhv
              exact Or.inl h'
          · rw [if_neg hhv] at h'
            exact Or.inl h'
    · exact Or.inr ⟨g, List.mem_cons_of_mem f hg, hgp⟩

/-- Every dispatched record belongs to a size bucket with at least two
members. -/
theorem dispatched_mem (db : Database) (f : File) (h : f ∈ dispatched db) :
    ∃ b ∈ db.files, 2 ≤ b.2.length ∧ ∃ e ∈ b.2, e.2 = f := by
  unfold dispatched at h
  rw [List.mem_flatMap] at h
  obtain ⟨b, hb, hf⟩ := h
  rw [List.mem_filter] at hb
  refine ⟨b, hb.1, by simpa using hb.2, ?_⟩
  unfold ToSlice at hf
  rw [List.mem_map] at hf
  obtain ⟨e, he, he2⟩ := hf
  exact ⟨e, he, he2⟩

/-- C6: the walker skips zero-size files — a zero-size entry leaves the
size index untouched — and `CalculcateHashes` dispatches hashing work only
for size buckets with at least two records, so a path newly present in the
hash index after hashing belongs to a size bucket with ≥ 2 members:
zero-byte files and singleton-size-bucket files never enter the hash
index. -/
theorem zeroSize_and_singleton_never_hashed :
    (∀ (known : List String) (db : Database) (p : String) (mode : Nat)
       (mtime : Int),
      walkDir false known db (.entry p mode 0 mtime) = .ok db) ∧
    (∀ (hashFn : String → Option String) (db : Database) (hv p : String),
      bucketLookup ((CalculcateHashes false hashFn db).2).hashes hv p ≠
          none →
      bucketLookup db.hashes hv p ≠ none ∨
        ∃ b ∈ db.files, 2 ≤ b.2.length ∧ ∃ e ∈ b.2, e.2.path = p) := by
  constructor
  · intro known db p mode mtime
    unfold walkDir
    by_cases hm : mode &&& modeTypeMask ≠ 0 <;> simp [hm]
  · intro hashFn db hv p h
    have h2 : bucketLookup
        ((dispatched db).foldl (calculateHash hashFn) db).hashes hv p ≠
          none := by
      simpa [CalculcateHashes] using h
    rcases calcHash_foldl_new hashFn (dispatched db) db hv p h2 with
      h' | ⟨f, hf, hfp⟩
    · exact Or.inl h'
    · obtain ⟨b, hb, hlen, e, he, he2⟩ := dispatched_mem db f hf
      exact Or.inr ⟨b, hb, hlen, e, he, by rw [he2, hfp]⟩

/-- Witness for C6: a zero-size entry is skipped, and a record that did
newly appear in the hash index after hashing a concrete two-member bucket
indeed comes from a bucket with two members. -/
theorem zeroSize_and_singleton_never_hashed_witness :
    walkDir false [] Database.new (.entry "/z" 0 0 7) = .ok Database.new ∧
    (bucketLookup
        (Database.mk [((1 : Int), [("/a", ⟨"/a", "", 1, 0, 0⟩),
          ("/b", ⟨"/b", "", 1, 0, 0⟩)])] []).hashes "h" "/a" ≠ none ∨
      ∃ b ∈ (Database.mk [((1 : Int), [("/a", ⟨"/a", "", 1, 0, 0⟩),
          ("/b", ⟨"/b", "", 1, 0, 0⟩)])] []).files,
        2 ≤ b.2.length ∧ ∃ e ∈ b.2, e.2.path = "/a") :=
  ⟨zeroSize_and_singleton_never_hashed.1 [] Database.new "/z" 0 7,
    zeroSize_and_singleton_never_hashed.2 (fun _ => some "h")
      (Database.mk [((1 : Int), [("/a", ⟨"/a", "", 1, 0, 0⟩),
        ("/b", ⟨"/b", "", 1, 0, 0⟩)])] []) "h" "/a" (by decide)⟩

/-! ### C1 -/

theorem bucketLoop_nil (ctxDone cfgDelete : Bool) (m : Nat → File → Bool)
    (removeOk gone : String → Bool) (length : Nat) (i : Nat)
    (s : BucketState) :
    bucketLoop ctxDone cfgDelete m removeOk gone length [] i s = s := rfl

/-- Each marked candidate strictly precedes the guard: the processed count
never exceeds `length - 1` once it starts below it. -/
theorem bucketLoop_processed_le (ctxDone cfgDelete : Bool)
    (m : Nat → File → Bool) (removeOk gone : String → Bool) (length : Nat) :
    ∀ (slice : List File) (i : Nat) (s : BucketState),
      2 ≤ length → s.processed ≤ length - 1 →
      (bucketLoop ctxDone cfgDelete m removeOk gone length slice i
        s).processed ≤ length - 1 := by
  intro slice
  induction slice with
  | nil => intro i s _ hs; exact hs
  | cons fil rest ih =>
    intro i s h2 hs
    rw [bucketLoop_cons]
    by_cases hd : ctxDone = true
    · rw [if_pos hd]; exact hs
    · rw [if_neg hd]
      by_cases hg : length - s.processed < 2
      · rw [if_pos hg]; exact hs
      · rw [if_neg hg]
        by_cases hmt : m i fil = true
        · rw [if_pos hmt]
          by_cases hdel : cfgDelete = true
          · rw [if_pos hdel]
            exact ih (i + 1) _ h2 (by show s.processed + 1 ≤ _; omega)
          · rw [if_neg hdel]
            exact ih (i + 1) _ h2 (by show s.processed + 1 ≤ _; omega)
        · rw [if_neg hmt]
          exact ih (i + 1) s h2 hs

/-- The loop appends the newly marked candidates to `marked`, increments
`processed` once per mark, marks only slice members, and mutates the
database only at the paths of the newly marked candidates. -/
theorem bucketLoop_marked (ctxDone cfgDelete : Bool)
    (m : Nat → File → Bool) (removeOk gone : String → Bool) (length : Nat) :
    ∀ (slice : List File) (i : Nat) (s : BucketState),
      ∃ t : List File,
        (bucketLoop ctxDone cfgDelete m removeOk gone length slice i
            s).marked = s.marked ++ t ∧
        (bucketLoop ctxDone cfgDelete m removeOk gone length slice i
            s).processed = s.processed + t.length ∧
        (∀ f ∈ t, f ∈ slice) ∧
        (∀ p : String, (∀ f ∈ t, f.path ≠ p) →
          (∀ k, bucketLookup (bucketLoop ctxDone cfgDelete m removeOk gone
              length slice i s).db.hashes k p =
            bucketLookup s.db.hashes k p) ∧
          (∀ sz, bucketLookup (bucketLoop ctxDone cfgDelete m removeOk gone
              length slice i s).db.files sz p =
            bucketLookup s.db.files sz p)) := by
  intro slice
  induction slice with
  | nil =>
    intro i s
    exact ⟨[], by rw [bucketLoop_nil]; simp, by rw [bucketLoop_nil]; simp,
      by simp, fun p _ => ⟨fun k => rfl, fun sz => rfl⟩⟩
  | cons fil rest ih =>
    intro i s
    rw [bucketLoop_cons]
    by_cases hd : ctxDone = true
    · rw [if_pos hd]
      exact ⟨[], by simp, by simp, by simp, fun p _ => ⟨fun k => rfl,
        fun sz => rfl⟩⟩
    · rw [if_neg hd]
      by_cases hg : length - s.processed < 2
      · rw [if_pos hg]
        exact ⟨[], by simp, by simp, by simp, fun p _ => ⟨fun k => rfl,
          fun sz => rfl⟩⟩
      · rw [if_neg hg]
        by_cases hmt : m i fil = true
        · rw [if_pos hmt]
          by_cases hdel : cfgDelete = true
          · rw [if_pos hdel]
            obtain ⟨t2, hmk, hpr, hmem, hdb⟩ := ih (i + 1)
              { processed := s.processed + 1, marked := s.marked ++ [fil],
                stopped := s.stopped,
                db := deleteFile (removeOk fil.path) (gone fil.path)
                  s.db fil }
            refine ⟨fil :: t2, ?_, ?_, ?_, ?_⟩
            · rw [hmk]
              simp
            · rw [hpr]
              simp
              omega
            · intro f hf
              rcases hf with _ | hf
              · exact List.mem_cons_self fil rest
              · exact List.mem_cons_of_mem fil (hmem f (by assumption))
            · intro p hp
              have hfilp : fil.path ≠ p := hp fil (List.mem_cons_self _ _)
              have hrest : ∀ f ∈ t2, f.path ≠ p :=
                fun f hf => hp f (List.mem_cons_of_mem fil hf)
              have hmid := hdb p hrest
              have hstep : (∀ k, bucketLookup (deleteFile
                    (removeOk fil.path) (gone fil.path) s.db fil).hashes k p
                    = bucketLookup s.db.hashes k p) ∧
                  (∀ sz, bucketLookup (deleteFile (removeOk fil.path)
                    (gone fil.path) s.db fil).files sz p =
                    bucketLookup s.db.files sz p) := by
                unfold deleteFile
                by_cases hgone : gone fil.path = true
                · rw [if_pos hgone]
                  constructor
                  · intro k
                    rw [bucketLookup_erase]
                    have : ¬ (k = fil.hash ∧ p = fil.path) :=
                      fun hc => hfilp hc.2.symm
                    rw [if_neg this]
                  · intro sz
                    rw [bucketLookup_erase]
                    have : ¬ (sz = fil.size ∧ p = fil.path) :=
                      fun hc => hfilp hc.2.symm
                    rw [if_neg this]
                · rw [if_neg hgone]
                  exact ⟨fun k => rfl, fun sz => rfl⟩
              exact ⟨fun k => (hmid.1 k).trans (hstep.1 k),
                fun sz => (hmid.2 sz).trans (hstep.2 sz)⟩
          · rw [if_neg hdel]
            obtain ⟨t2, hmk, hpr, hmem, hdb⟩ := ih (i + 1)
              { processed := s.processed + 1, marked := s.marked ++ [fil],
                stopped := s.stopped, db := s.db }
            refine ⟨fil :: t2, ?_, ?_, ?_, ?_⟩
            · rw [hmk]
              simp
            · rw [hpr]
              simp
              omega
            · intro f hf
              rcases hf with _ | hf
              · exact List.mem_cons_self fil rest
              · exact List.mem_cons_of_mem fil (hmem f (by assumption))
            · intro p hp
              have hrest : ∀ f ∈ t2, f.path ≠ p :=
                fun f hf => hp f (List.mem_cons_of_mem fil hf)
              exact hdb p hrest
        · rw [if_neg hmt]
          obtain ⟨t2, hmk, hpr, hmem, hdb⟩ := ih (i + 1) s
          exact ⟨t2, hmk, hpr,
            fun f hf => List.mem_cons_of_mem fil (hmem f hf), hdb⟩

/-- C1: for every hash bucket with at least two members (its sorted slice
has pairwise-distinct paths) and under every configuration of retention
rules (any `matchRules` outcome and any deletion oracles), the per-bucket
pass of `DeleteDuplicates` marks at most `len(bucket) - 1` candidates
(`processed` counts exactly the marked candidates, even when their deletion
fails), so at least one member is never marked and its index entries are
never touched. -/
theorem deleteDuplicates_spares_one (ctxDone : Bool) (cfg : Config)
    (removeOk gone : String → Bool) (db : Database) (files : FMap)
    (hlen : 2 ≤ files.length)
    (hnodup : ((SortByPath (ToSlice files)).map File.path).Nodup) :
    (processHashBucket ctxDone cfg removeOk gone db files).processed ≤
        files.length - 1 ∧
      (processHashBucket ctxDone cfg removeOk gone db files).marked.length =
        (processHashBucket ctxDone cfg removeOk gone db files).processed ∧
      ∃ f ∈ SortByPath (ToSlice files),
        f ∉ (processHashBucket ctxDone cfg removeOk gone db files).marked ∧
        (∀ k, bucketLookup (processHashBucket ctxDone cfg removeOk gone db
            files).db.hashes k f.path = bucketLookup db.hashes k f.path) ∧
        (∀ sz, bucketLookup (processHashBucket ctxDone cfg removeOk gone db
            files).db.files sz f.path =
          bucketLookup db.files sz f.path) := by
  have hslen : (SortByPath (ToSlice files)).length = files.length := by
    unfold SortByPath ToSlice
    rw [(List.perm_insertionSort _ _).length_eq, List.length_map]
  have hPHB : processHashBucket ctxDone cfg removeOk gone db files =
      bucketLoop ctxDone cfg.delete
        (matchRules cfg (SortByPath (ToSlice files))) removeOk gone
        files.length (SortByPath (ToSlice files)) 0
        ⟨0, [], false, db⟩ := rfl
  rw [hPHB]
  have hple := bucketLoop_processed_le ctxDone cfg.delete
    (matchRules cfg (SortByPath (ToSlice files))) removeOk gone files.length
    (SortByPath (ToSlice files)) 0 ⟨0, [], false, db⟩ hlen (Nat.zero_le _)
  obtain ⟨t, hmk, hpr, hmem, hdb⟩ := bucketLoop_marked ctxDone cfg.delete
    (matchRules cfg (SortByPath (ToSlice files))) removeOk gone files.length
    (SortByPath (ToSlice files)) 0 ⟨0, [], false, db⟩
  simp only [List.nil_append, Nat.zero_add] at hmk hpr
  refine ⟨hple, by rw [hmk, hpr], ?_⟩
  have hnods : (SortByPath (ToSlice files)).Nodup := hnodup.of_map _
  have hex : ∃ f ∈ SortByPath (ToSlice files), f ∉ t := by
    by_contra hall
    push_neg at hall
    have hsub : SortByPath (ToSlice files) ⊆ t := fun f hf => hall f hf
    have hll := (List.subperm_of_subset hnods hsub).length_le
    rw [hslen] at hll
    rw [hpr] at hple
    omega
  obtain ⟨f, hf, hft⟩ := hex
  refine ⟨f, hf, by rw [hmk]; exact hft, ?_, ?_⟩
  · intro k
    have hpaths : ∀ g ∈ t, g.path ≠ f.path := by
      intro g hg hc
      have hgs : g ∈ SortByPath (ToSlice files) := hmem g hg
      have := List.inj_on_of_nodup_map hnodup hgs hf hc
      exact hft (this ▸ hg)
    exact (hdb f.path hpaths).1 k
  · intro sz
    have hpaths : ∀ g ∈ t, g.path ≠ f.path := by
      intro g hg hc
      have hgs : g ∈ SortByPath (ToSlice files) := hmem g hg
      have := List.inj_on_of_nodup_map hnodup hgs hf hc
      exact hft (this ▸ hg)
    exact (hdb f.path hpaths).2 sz

/-- Sorting by path preserves the distinct-paths property. -/
theorem sortByPath_map_path_nodup {l : List File}
    (h : (l.map File.path).Nodup) :
    ((SortByPath l).map File.path).Nodup := by
  have hperm : (SortByPath l).Perm l := List.perm_insertionSort _ _
  exact ((hperm.map File.path).nodup_iff).mpr h

/-- Witness for C1: under keep-first with always-successful deletions over
a concrete two-member bucket, at most one candidate is processed. -/
theorem deleteDuplicates_spares_one_witness :
    (processHashBucket false { delete := true, keepFirst := true }
        (fun _ => true) (fun _ => true) Database.new
        [("/b", ⟨"/b", "h", 1, 0, 0⟩),
         ("/a", ⟨"/a", "h", 1, 0, 0⟩)]).processed ≤
      ([("/b", (⟨"/b", "h", 1, 0, 0⟩ : File)),
        ("/a", ⟨"/a", "h", 1, 0, 0⟩)] : FMap).length - 1 :=
  (deleteDuplicates_spares_one false { delete := true, keepFirst := true }
    (fun _ => true) (fun _ => true) Database.new
    [("/b", ⟨"/b", "h", 1, 0, 0⟩), ("/a", ⟨"/a", "h", 1, 0, 0⟩)]
    (by decide) (sortByPath_map_path_nodup (by decide))).1

/-! ### C5 -/

/-- In dry-run mode (`Delete` not set) the per-bucket loop never touches
the database. -/
theorem bucketLoop_dryRun (ctxDone : Bool) (m : Nat → File → Bool)
    (removeOk gone : String → Bool) (length : Nat) :
    ∀ (slice : List File) (i : Nat) (s : BucketState),
      (bucketLoop ctxDone false m removeOk gone length slice i s).db =
        s.db := by
  intro slice
  induction slice with
  | nil => intro i s; rw [bucketLoop_nil]
  | cons fil rest ih =>
    intro i s
    rw [bucketLoop_cons]
    by_cases hd : ctxDone = true
    · rw [if_pos hd]
    · rw [if_neg hd]
      by_cases hg : length - s.processed < 2
      · rw [if_pos hg]
      · rw [if_neg hg]
        by_cases hmt : m i fil = true
        · rw [if_pos hmt, if_neg Bool.false_ne_true]
          exact ih (i + 1) _
        · rw [if_neg hmt]
          exact ih (i + 1) s

/-- When the match predicate rejects exactly the candidate at index `p` and
accepts every other index, the loop marks everything except `p`: it
finishes with `processed = length - 1`, one logical survivor. -/
theorem bucketLoop_survivor (cfgDelete : Bool) (m : Nat → File → Bool)
    (removeOk gone : String → Bool) (slice : List File) (p : Nat)
    (hp : p < slice.length) (hlen : 2 ≤ slice.length)
    (H : ∀ i (h : i < slice.length), m i slice[i] = decide (i ≠ p)) :
    ∀ (rest : List File) (j : Nat) (s : BucketState),
      rest = slice.drop j → j ≤ slice.length →
      s.processed = j - (if p < j then 1 else 0) →
      (bucketLoop false cfgDelete m removeOk gone slice.length rest j
        s).processed = slice.length - 1 := by
  intro rest
  induction rest with
  | nil =>
    intro j s hdrop hj hs
    rw [bucketLoop_nil]
    have hge : slice.length ≤ j := by
      by_contra hlt
      push_neg at hlt
      have hc := List.drop_eq_getElem_cons hlt
      rw [← hdrop] at hc
      cases hc
    have hj' : j = slice.length := le_antisymm hj hge
    rw [hs, hj', if_pos hp]
  | cons f rest' ih =>
    intro j s hdrop hj hs
    have hjlt : j < slice.length := by
      by_contra hge
      push_neg at hge
      rw [List.drop_eq_nil_of_le hge] at hdrop
      cases hdrop
    have hcons := List.drop_eq_getElem_cons hjlt
    rw [hcons] at hdrop
    injection hdrop with hf hrest
    rw [bucketLoop_cons, if_neg Bool.false_ne_true]
    by_cases hg : slice.length - s.processed < 2
    · rw [if_pos hg]
      rw [hs] at hg ⊢
      by_cases hpj : p < j
      · rw [if_pos hpj] at hg ⊢
        omega
      · rw [if_neg hpj] at hg ⊢
        omega
    · rw [if_neg hg]
      have hmval : m j f = decide (j ≠ p) := by
        rw [hf]
        exact H j hjlt
      by_cases hjp : j = p
      · have hmf : ¬ m j f = true := by
          rw [hmval, hjp]
          simp
        rw [if_neg hmf]
        refine ih (j + 1) s hrest (by omega) ?_
        rw [hs]
        have h1 : ¬ p < j := by omega
        have h2 : p < j + 1 := by omega
        rw [if_neg h1, if_pos h2]
        omega
      · have hmf : m j f = true := by
          rw [hmval]
          simp [hjp]
        rw [if_pos hmf]
        by_cases hdel : cfgDelete = true
        · rw [if_pos hdel]
          refine ih (j + 1) _ hrest (by omega) ?_
          show s.processed + 1 = (j + 1) - (if p < j + 1 then 1 else 0)
          rw [hs]
          by_cases hpj : p < j
          · rw [if_pos hpj, if_pos (by omega : p < j + 1)]
            omega
          · rw [if_neg hpj, if_neg (by omega : ¬ p < j + 1)]
            omega
        · rw [if_neg hdel]
          refine ih (j + 1) _ hrest (by omega) ?_
          show s.processed + 1 = (j + 1) - (if p < j + 1 then 1 else 0)
          rw [hs]
          by_cases hpj : p < j
          · rw [if_pos hpj, if_pos (by omega : p < j + 1)]
            omega
          · rw [if_neg hpj, if_neg (by omega : ¬ p < j + 1)]
            omega

/-- The head of the time-sorted slice exists and is a slice member. -/
theorem sortByTime_head_mem (d : Direction) (slice : List File)
    (h : slice ≠ []) :
    ∃ h0, (SortByTime d slice).head? = some h0 ∧ h0 ∈ slice := by
  have hperm : (SortByTime d slice).Perm slice := by
    cases d <;> exact List.perm_insertionSort _ _
  rcases hs : SortByTime d slice with _ | ⟨h0, rest⟩
  · exfalso
    apply h
    rw [hs] at hperm
    exact hperm.symm.eq_nil
  · rw [hs] at hperm
    exact ⟨h0, rfl, hperm.mem_iff.mp (List.mem_cons_self h0 rest)⟩

theorem matchRules_keepRecent_only (cfg : Config) (slice : List File)
    (i : Nat) (fil : File) (h1 : cfg.keepRecent = true)
    (h2 : cfg.keepOldest = false) (h3 : cfg.keepFirst = false)
    (h4 : cfg.keepLast = false) (h5 : cfg.delMatch = none)
    (h6 : cfg.keepMatch = none) :
    matchRules cfg slice i fil =
      decide (some fil ≠ (SortByTime .descending slice).head?) := by
  unfold matchRules
  rcases hd : decide (some fil ≠ (SortByTime .descending slice).head?) <;>
    simp [h1, h2, h3, h4, h5, h6, hd]

theorem matchRules_keepOldest_only (cfg : Config) (slice : List File)
    (i : Nat) (fil : File) (h1 : cfg.keepRecent = false)
    (h2 : cfg.keepOldest = true) (h3 : cfg.keepFirst = false)
    (h4 : cfg.keepLast = false) (h5 : cfg.delMatch = none)
    (h6 : cfg.keepMatch = none) :
    matchRules cfg slice i fil =
      decide (some fil ≠ (SortByTime .ascending slice).head?) := by
  unfold matchRules
  rcases hd : decide (some fil ≠ (SortByTime .ascending slice).head?) <;>
    simp [h1, h2, h3, h4, h5, h6, hd]

theorem matchRules_keepFirst_only (cfg : Config) (slice : List File)
    (i : Nat) (fil : File) (h1 : cfg.keepRecent = false)
    (h2 : cfg.keepOldest = false) (h3 : cfg.keepFirst = true)
    (h4 : cfg.keepLast = false) (h5 : cfg.delMatch = none)
    (h6 : cfg.keepMatch = none) :
    matchRules cfg slice i fil = decide (i ≠ 0) := by
  unfold matchRules
  rcases hd : decide (i ≠ 0) <;>
    simp [h1, h2, h3, h4, h5, h6, hd]

theorem matchRules_keepLast_only (cfg : Config) (slice : List File)
    (i : Nat) (fil : File) (h1 : cfg.keepRecent = false)
    (h2 : cfg.keepOldest = false) (h3 : cfg.keepFirst = false)
    (h4 : cfg.keepLast = true) (h5 : cfg.delMatch = none)
    (h6 : cfg.keepMatch = none) :
    matchRules cfg slice i fil = decide (i ≠ slice.length - 1) := by
  unfold matchRules
  rcases hd : decide (i ≠ slice.length - 1) <;>
    simp [h1, h2, h3, h4, h5, h6, hd]

/-- C5: with exactly one active keep-rule and no pattern rules, the
per-bucket pass over a sorted slice with at least two members and distinct
paths marks all members but one — exactly one member logically remains
(`processed = length - 1`), and in dry-run mode the database is untouched.
In particular, `DeleteDuplicates` with keep-first over identical-content
files `/a/1.txt`, `/b/2.txt`, `/c/3.txt` (stored unsorted) leaves only
`/a/1.txt`, the lexically smallest path, in both indices. -/
theorem keepRule_unique_survivor :
    (∀ (cfg : Config) (removeOk gone : String → Bool) (db : Database)
       (slice : List File),
      (slice.map File.path).Nodup → 2 ≤ slice.length →
      cfg.delMatch = none → cfg.keepMatch = none →
      ((cfg.keepRecent = true ∧ cfg.keepOldest = false ∧
          cfg.keepFirst = false ∧ cfg.keepLast = false) ∨
        (cfg.keepRecent = false ∧ cfg.keepOldest = true ∧
          cfg.keepFirst = false ∧ cfg.keepLast = false) ∨
        (cfg.keepRecent = false ∧ cfg.keepOldest = false ∧
          cfg.keepFirst = true ∧ cfg.keepLast = false) ∨
        (cfg.keepRecent = false ∧ cfg.keepOldest = false ∧
          cfg.keepFirst = false ∧ cfg.keepLast = true)) →
      (bucketLoop false cfg.delete (matchRules cfg slice) removeOk gone
          slice.length slice 0 ⟨0, [], false, db⟩).processed =
        slice.length - 1 ∧
      slice.length - (bucketLoop false cfg.delete (matchRules cfg slice)
          removeOk gone slice.length slice 0
          ⟨0, [], false, db⟩).processed = 1 ∧
      (cfg.delete = false →
        (bucketLoop false cfg.delete (matchRules cfg slice) removeOk gone
          slice.length slice 0 ⟨0, [], false, db⟩).db = db)) ∧
    Except.toOption (DeleteDuplicates false { delete := true, keepFirst := true }
        (fun _ => true) (fun _ => true)
        ⟨[((3 : Int), [("/c/3.txt", ⟨"/c/3.txt", "h", 3, 3, 420⟩),
            ("/a/1.txt", ⟨"/a/1.txt", "h", 3, 1, 420⟩),
            ("/b/2.txt", ⟨"/b/2.txt", "h", 3, 2, 420⟩)])],
          [("h", [("/c/3.txt", ⟨"/c/3.txt", "h", 3, 3, 420⟩),
            ("/a/1.txt", ⟨"/a/1.txt", "h", 3, 1, 420⟩),
            ("/b/2.txt", ⟨"/b/2.txt", "h", 3, 2, 420⟩)])]⟩) =
      some ⟨[((3 : Int), [("/a/1.txt", ⟨"/a/1.txt", "h", 3, 1, 420⟩)])],
        [("h", [("/a/1.txt", ⟨"/a/1.txt", "h", 3, 1, 420⟩)])]⟩ := by
  constructor
  · intro cfg removeOk gone db slice hnodup hlen hdm hkm hone
    have hnods : slice.Nodup := hnodup.of_map _
    have hexP : ∃ p, ∃ hp : p < slice.length,
        ∀ i (h : i < slice.length),
          matchRules cfg slice i slice[i] = decide (i ≠ p) := by
      rcases hone with ⟨h1, h2, h3, h4⟩ | ⟨h1, h2, h3, h4⟩ |
        ⟨h1, h2, h3, h4⟩ | ⟨h1, h2, h3, h4⟩
      · have hne : slice ≠ [] := by
          intro hc
          rw [hc] at hlen
          simp at hlen
        obtain ⟨h0, hhead, hmem⟩ :=
          sortByTime_head_mem .descending slice hne
        obtain ⟨p, hp, hpe⟩ := List.mem_iff_getElem.mp hmem
        refine ⟨p, hp, fun i h => ?_⟩
        rw [matchRules_keepRecent_only cfg slice i _ h1 h2 h3 h4 hdm hkm,
          hhead]
        apply decide_eq_decide.mpr
        constructor
        · intro hne2 hc
          apply hne2
          subst hc
          rw [hpe]
        · intro hne2 hc
          have : slice[i] = slice[p] := by
            rw [hpe]
            exact Option.some_injective _ hc
          exact hne2 ((hnods.getElem_inj_iff).mp this)
      · have hne : slice ≠ [] := by
          intro hc
          rw [hc] at hlen
          simp at hlen
        obtain ⟨h0, hhead, hmem⟩ :=
          sortByTime_head_mem .ascending slice hne
        obtain ⟨p, hp, hpe⟩ := List.mem_iff_getElem.mp hmem
        refine ⟨p, hp, fun i h => ?_⟩
        rw [matchRules_keepOldest_only cfg slice i _ h1 h2 h3 h4 hdm hkm,
          hhead]
        apply decide_eq_decide.mpr
        constructor
        · intro hne2 hc
          apply hne2
          subst hc
          rw [hpe]
        · intro hne2 hc
          have : slice[i] = slice[p] := by
            rw [hpe]
            exact Option.some_injective _ hc
          exact hne2 ((hnods.getElem_inj_iff).mp this)
      · refine ⟨0, by omega, fun i h => ?_⟩
        rw [matchRules_keepFirst_only cfg slice i _ h1 h2 h3 h4 hdm hkm]
      · refine ⟨slice.length - 1, by omega, fun i h => ?_⟩
        rw [matchRules_keepLast_only cfg slice i _ h1 h2 h3 h4 hdm hkm]
    obtain ⟨p, hp, H⟩ := hexP
    have hmain := bucketLoop_survivor cfg.delete (matchRules cfg slice)
      removeOk gone slice p hp hlen H slice 0 ⟨0, [], false, db⟩
      (List.drop_zero slice).symm (Nat.zero_le _) (by simp)
    refine ⟨hmain, by omega, ?_⟩
    intro hdel
    rw [hdel] at hmain ⊢
    exact bucketLoop_dryRun false (matchRules cfg slice) removeOk gone
      slice.length slice 0 ⟨0, [], false, db⟩
  · have hsort : SortByPath (ToSlice
        [("/c/3.txt", ⟨"/c/3.txt", "h", 3, 3, 420⟩),
         ("/a/1.txt", ⟨"/a/1.txt", "h", 3, 1, 420⟩),
         ("/b/2.txt", ⟨"/b/2.txt", "h", 3, 2, 420⟩)]) =
        [⟨"/a/1.txt", "h", 3, 1, 420⟩, ⟨"/b/2.txt", "h", 3, 2, 420⟩,
         ⟨"/c/3.txt", "h", 3, 3, 420⟩] := by
      unfold SortByPath ToSlice
      simp [List.insertionSort, List.orderedInsert]
      all_goals decide
    unfold DeleteDuplicates
    simp only [deleteDuplicatesGo, processHashBucket]
    rw [hsort]
    decide

/-- Witness for C5: keep-first over a concrete two-member sorted slice
marks exactly one candidate. -/
theorem keepRule_unique_survivor_witness :
    (bucketLoop false false
        (matchRules { keepFirst := true }
          [⟨"/a", "h", 1, 0, 0⟩, ⟨"/b", "h", 1, 0, 0⟩])
        (fun _ => true) (fun _ => true) 2
        [⟨"/a", "h", 1, 0, 0⟩, ⟨"/b", "h", 1, 0, 0⟩] 0
        ⟨0, [], false, Database.new⟩).processed = 2 - 1 :=
  (keepRule_unique_survivor.1 { keepFirst := true } (fun _ => true)
    (fun _ => true) Database.new
    [⟨"/a", "h", 1, 0, 0⟩, ⟨"/b", "h", 1, 0, 0⟩]
    (by decide) (by decide) rfl rfl
    (Or.inr (Or.inr (Or.inl ⟨rfl, rfl, rfl, rfl⟩)))).1

/-! ### C3 -/

/-- C3: for a record `fil` of hash bucket `hashKey` (its digest equals its
bucket key, it was indexed as a regular file, and its path occurs in no
other size or hash bucket), the `VerifyDatabase` body re-stats `fil.path`
and: (a) a stat failure removes the record from both indices; (b) a
changed modification time clears the digest and re-homes the record into
the size bucket for its current size, UNLESS the path is no longer a
regular file or now has zero size, in which case the record is dropped
from both indices entirely; (c) an unchanged modification time leaves the
database untouched (no digest is ever recomputed — `VerifyDatabase`
performs no hashing).  On a hash index holding exactly this record,
`VerifyDatabase` is exactly this reconciliation step. -/
theorem verifyRecord_outcomes (fs : String → Option StatInfo)
    (hashKey : String) (db : Database) (fil : File)
    (hhash : fil.hash = hashKey)
    (hreg : fil.mode &&& modeTypeMask = 0)
    (hsz : ∀ sz : Int, sz ≠ fil.size →
      bucketLookup db.files sz fil.path = none)
    (hhs : ∀ k : String, k ≠ hashKey →
      bucketLookup db.hashes k fil.path = none) :
    (fs fil.path = none →
      (∀ sz, bucketLookup (verifyRecord fs hashKey db fil).files sz
        fil.path = none) ∧
      (∀ k, bucketLookup (verifyRecord fs hashKey db fil).hashes k
        fil.path = none)) ∧
    (∀ info, fs fil.path = some info → info.mtime ≠ fil.mtime →
      (info.mode &&& modeTypeMask ≠ 0 ∨ info.size = 0) →
      (∀ sz, bucketLookup (verifyRecord fs hashKey db fil).files sz
        fil.path = none) ∧
      (∀ k, bucketLookup (verifyRecord fs hashKey db fil).hashes k
        fil.path = none)) ∧
    (∀ info, fs fil.path = some info → info.mtime ≠ fil.mtime →
      info.mode &&& modeTypeMask = 0 → info.size ≠ 0 →
      bucketLookup (verifyRecord fs hashKey db fil).files info.size
          fil.path = some { fil with
            mtime := info.mtime
            size := info.size
            hash := ""
            mode := info.mode } ∧
      (∀ sz, sz ≠ info.size →
        bucketLookup (verifyRecord fs hashKey db fil).files sz fil.path =
          none) ∧
      (∀ k, bucketLookup (verifyRecord fs hashKey db fil).hashes k
        fil.path = none)) ∧
    (∀ info, fs fil.path = some info → info.mtime = fil.mtime →
      verifyRecord fs hashKey db fil = db) ∧
    (hashEntries db = [(hashKey, fil)] →
      VerifyDatabase fs db = verifyRecord fs hashKey db fil) := by
  refine ⟨?_, ?_, ?_, ?_, ?_⟩
  · intro hstat
    have hvr : verifyRecord fs hashKey db fil =
        { files := bucketErase db.files fil.size fil.path
          hashes := bucketErase db.hashes hashKey fil.path } := by
      unfold verifyRecord
      rw [hstat]
    rw [hvr]
    constructor
    · intro sz
      rw [bucketLookup_erase]
      by_cases h : sz = fil.size
      · rw [if_pos ⟨h, rfl⟩]
      · rw [if_neg (fun hc => h hc.1)]
        exact hsz sz h
    · intro k
      rw [bucketLookup_erase]
      by_cases h : k = hashKey
      · rw [if_pos ⟨h, rfl⟩]
      · rw [if_neg (fun hc => h hc.1)]
        exact hhs k h
  · intro info hstat hmt hdrop
    have hcond : info.mode &&& modeTypeMask ≠ fil.mode &&& modeTypeMask ∨
        info.size = 0 := by
      rw [hreg]
      exact hdrop
    have hvr : verifyRecord fs hashKey db fil =
        { files := bucketErase db.files fil.size fil.path
          hashes := bucketErase db.hashes fil.hash fil.path } := by
      unfold verifyRecord
      rw [hstat]
      simp only [if_pos hmt, if_pos hcond]
    rw [hvr, hhash]
    constructor
    · intro sz
      rw [bucketLookup_erase]
      by_cases h : sz = fil.size
      · rw [if_pos ⟨h, rfl⟩]
      · rw [if_neg (fun hc => h hc.1)]
        exact hsz sz h
    · intro k
      rw [bucketLookup_erase]
      by_cases h : k = hashKey
      · rw [if_pos ⟨h, rfl⟩]
      · rw [if_neg (fun hc => h hc.1)]
        exact hhs k h
  · intro info hstat hmt hregNow hszNow
    have hcond : ¬ (info.mode &&& modeTypeMask ≠ fil.mode &&& modeTypeMask
        ∨ info.size = 0) := by
      rw [hreg]
      push_neg
      exact ⟨hregNow, hszNow⟩
    have hvr : verifyRecord fs hashKey db fil =
        { files := bucketInsert (bucketErase db.files fil.size fil.path)
            info.size fil.path
            { fil with
              mtime := info.mtime
              size := info.size
              hash := ""
              mode := info.mode }
          hashes := bucketErase db.hashes fil.hash fil.path } := by
      unfold verifyRecord
      rw [hstat]
      simp only [if_pos hmt, if_neg hcond]
    rw [hvr, hhash]
    refine ⟨?_, ?_, ?_⟩
    · rw [bucketLookup_insert, if_pos rfl, if_pos rfl]
    · intro sz hne
      rw [bucketLookup_insert, if_neg hne, bucketLookup_erase]
      by_cases h : sz = fil.size
      · rw [if_pos ⟨h, rfl⟩]
      · rw [if_neg (fun hc => h hc.1)]
        exact hsz sz h
    · intro k
      rw [bucketLookup_erase]
      by_cases h : k = hashKey
      · rw [if_pos ⟨h, rfl⟩]
      · rw [if_neg (fun hc => h hc.1)]
        exact hhs k h
  · intro info hstat hmt
    unfold verifyRecord
    rw [hstat]
    simp [hmt]
  · intro h
    unfold VerifyDatabase
    rw [h]
    rfl

/-- Witness for C3: a record whose file vanished is removed from the hash
index, and a single-record hash index makes `VerifyDatabase` exactly this
step. -/
theorem verifyRecord_outcomes_witness :
    bucketLookup (verifyRecord (fun _ => none) "h"
        ⟨[((1 : Int), [("/x", ⟨"/x", "h", 1, 5, 420⟩)])],
          [("h", [("/x", ⟨"/x", "h", 1, 5, 420⟩)])]⟩
        ⟨"/x", "h", 1, 5, 420⟩).hashes "h" "/x" = none ∧
    VerifyDatabase (fun _ => none)
        ⟨[((1 : Int), [("/x", ⟨"/x", "h", 1, 5, 420⟩)])],
          [("h", [("/x", ⟨"/x", "h", 1, 5, 420⟩)])]⟩ =
      verifyRecord (fun _ => none) "h"
        ⟨[((1 : Int), [("/x", ⟨"/x", "h", 1, 5, 420⟩)])],
          [("h", [("/x", ⟨"/x", "h", 1, 5, 420⟩)])]⟩
        ⟨"/x", "h", 1, 5, 420⟩ := by
  have hsz : ∀ sz : Int, sz ≠ (1 : Int) →
      bucketLookup ([((1 : Int), [("/x",
        (⟨"/x", "h", 1, 5, 420⟩ : File))])]) sz "/x" = none := by
    intro sz h
    have hne : ¬ ((1 : Int) = sz) := fun hc => h hc.symm
    simp [bucketLookup, assocFind, List.find?, hne]
  have hhs : ∀ k : String, k ≠ "h" →
      bucketLookup ([("h", [("/x",
        (⟨"/x", "h", 1, 5, 420⟩ : File))])]) k "/x" = none := by
    intro k h
    have hne : ¬ ("h" = k) := fun hc => h hc.symm
    simp [bucketLookup, assocFind, List.find?, hne]
  have hmain := verifyRecord_outcomes (fun _ => none) "h"
    ⟨[((1 : Int), [("/x", ⟨"/x", "h", 1, 5, 420⟩)])],
      [("h", [("/x", ⟨"/x", "h", 1, 5, 420⟩)])]⟩
    ⟨"/x", "h", 1, 5, 420⟩ rfl (by decide) hsz hhs
  exact ⟨(hmain.1 rfl).2 "h", hmain.2.2.2.2 (by decide)⟩

end FindDupes
